import Mathlib

/-!
Verification of the BenchExec single-run executor specification against the
repository sources.  The Python code is shallowly embedded: machine integers
become `Nat` (all the statuses involved are non-negative), bit operations use
`Nat.land` / `Nat.shiftRight` exactly as the source uses `&` / `>>`, and the
stateful scheduler pieces become explicit state-passing functions.
-/

namespace BenchExec

/-! ## ExitStatus codec (privilege elevation)

Embedding of `TestRunExecutorWithSudo.fix_exitcode` from
`src/benchexec/test_runexecutor.py` (lines 399-411):

    exitcode = int(result['exitcode'])
    returnsignal = exitcode & 0x7F
    returnvalue = (exitcode >> 8) & 0x7F
    if returnsignal == 0:
        result['exitcode'] = returnvalue
-/

/-- The wrapper's low-order signal field of a raw status, `exitcode & 0x7F`. -/
def sudo_returnsignal (exitcode : Nat) : Nat :=
  exitcode.land 0x7F

/-- The embedded high-order return value of a raw status,
`(exitcode >> 8) & 0x7F`. -/
def sudo_returnvalue (exitcode : Nat) : Nat :=
  (exitcode.shiftRight 8).land 0x7F

/-- `fix_exitcode` from the sudo test class: when the wrapper's signal field
is zero the exit code is replaced by the embedded return value, otherwise
the raw status is left as is. -/
def fix_exitcode (exitcode : Nat) : Nat :=
  if sudo_returnsignal exitcode = 0 then sudo_returnvalue exitcode else exitcode

/-- Modelled from the spec: the standard POSIX wait-status decomposition of
section 4.3 (the `RunExecutor` sources are not part of the given files).
Bits 0-6 are the terminating signal, bit 7 the core-dump flag and
bits 8-15 the exit value. -/
structure ExitStatus where
  value : Nat
  signal : Nat
  core_dumped : Bool
  deriving Repr, DecidableEq

/-- Modelled from the spec: the direct decode of a raw wait status per the
standard POSIX decomposition (spec section 4.3, direct case). -/
def decode_wait_status (raw : Nat) : ExitStatus :=
  { value := (raw.shiftRight 8).land 0xFF
    signal := raw.land 0x7F
    core_dumped := raw.land 0x80 ≠ 0 }

/-- Modelled from the spec: the privilege-elevation wrapper re-encodes the
target's fate into its own exit value, placing the target's real return
value in bits 8-14 and the target's terminating signal in bits 0-6 of the
raw status (spec section 4.3; the wrapper itself is external to the
repository). -/
def encode_sudo_status (value signal : Nat) : Nat :=
  value * 2 ^ 8 + signal

/-! ## Scheduling layer (`src/contrib/slurm/slurmexecutor.py`) -/

/-- The module-level mutable state of the slurm scheduling layer:
the `STOPPED_BY_INTERRUPT` flag and the `WORKER_THREADS` list
(worker threads are represented by opaque identifiers). -/
structure SchedulerState where
  stopped_by_interrupt : Bool
  worker_threads : List Nat
  deriving Repr, DecidableEq

/-- `stop()` from `slurmexecutor.py` (lines 115-117): it only sets the
global `STOPPED_BY_INTERRUPT` flag to `True`. -/
def stop (s : SchedulerState) : SchedulerState :=
  { s with stopped_by_interrupt := true }

/-- What happens to a unit of work's log file in `_Worker.execute`. -/
inductive LogFileState
  /-- the run completed normally and `output_after_run` ran -/
  | finalized
  /-- the incomplete log file was deleted -/
  | removed
  /-- debug mode: the incomplete log file was renamed with a `.killed` mark -/
  | renamedKilled
  /-- removal raised `OSError`, which was swallowed; the file stays behind -/
  | leftPartial
  deriving Repr, DecidableEq

/-- Outcome of the tail of `_Worker.execute` (everything after `run_slurm`
returns or the interrupt fired). -/
structure ExecOutcome where
  /-- whether `run.set_result` was called -/
  result_recorded : Bool
  log : LogFileState
  /-- whether an exception escaped this code -/
  raised : Bool
  /-- `execute` returns `1` when it abandons the run -/
  early_return : Option Nat
  deriving Repr, DecidableEq

/-- Embedding of the tail of `_Worker.execute`
(`slurmexecutor.py` lines 181-193): when `STOPPED_BY_INTERRUPT` is set the
log file is renamed (debug) or removed, an `OSError` is swallowed, and the
function returns 1 without recording a result; otherwise the result is
recorded and the run's output is finalized. -/
def workerFinish (stopped debug removeOk : Bool) : ExecOutcome :=
  if stopped then
    { result_recorded := false
      log :=
        if removeOk then
          if debug then LogFileState.renamedKilled else LogFileState.removed
        else LogFileState.leftPartial
      raised := false
      early_return := some 1 }
  else
    { result_recorded := true
      log := LogFileState.finalized
      raised := false
      early_return := none }

/-! ## LogWriter / size reducer

`_reduce_file_size_if_necessary` itself belongs to `benchexec/runexecutor.py`,
which is not among the given sources; only its tests are.  The reducer is
therefore modelled from the spec (section 4.4), with the warning message and
the overhead constant taken verbatim from the tests
(`TestRunExecutor.REDUCE_WARNING_MSG` / `REDUCE_OVERHEAD`).

A file is a list of lines; each line is its list of characters including the
terminating newline, except possibly for an unterminated final line. -/

abbrev Line := List Char

/-- Total size of a file in bytes. -/
def fileSize (f : List Line) : Nat :=
  (f.map List.length).sum

/-- The fixed warning message, from `TestRunExecutor.REDUCE_WARNING_MSG`. -/
def REDUCE_WARNING_MSG : List Char :=
  "WARNING: YOUR LOGFILE WAS TOO LONG, SOME LINES IN THE MIDDLE WERE REMOVED.".data

/-- The fixed overhead allowance, from `TestRunExecutor.REDUCE_OVERHEAD`. -/
def REDUCE_OVERHEAD : Nat := 100

/-- The marker inserted in place of the removed middle part: the fixed
warning text as one newline-terminated line. -/
def markerLine : Line :=
  REDUCE_WARNING_MSG ++ ['\n']

/-- Split a file after the line containing byte position `budget`: the first
component holds the whole lines up to and including that line, the second
the remaining lines.  When the file ends before byte `budget` is found the
second component is empty. -/
def takeToBoundary : List Line → Nat → List Line × List Line
  | [], _ => ([], [])
  | l :: rest, budget =>
    if budget < l.length then ([l], rest)
    else
      let pr := takeToBoundary rest (budget - l.length)
      (l :: pr.1, pr.2)

/-- The longest tail of whole lines whose total size fits in `budget`. -/
def tailWithin (budget : Nat) : List Line → List Line
  | [] => []
  | l :: rest =>
    if fileSize (l :: rest) ≤ budget then l :: rest
    else tailWithin budget rest

/-- Modelled from the spec: `reduce_to_limit` of section 4.4
(`_reduce_file_size_if_necessary` is not among the given sources).  A file
at or under the limit is untouched.  Otherwise a head part aligned to whole
lines is kept up to half the limit, the fixed marker is inserted, and the
whole lines fitting in the remaining half at the end are kept.  When the
head part already reaches the end of the file (a long line crossing the
midpoint runs to the end) there is no middle part to remove and the file is
left intact. -/
def reduce_to_limit (f : List Line) (limit : Nat) : List Line :=
  if fileSize f ≤ limit then f
  else
    let pr := takeToBoundary f (limit / 2)
    if pr.2 = [] then f
    else pr.1 ++ markerLine :: tailWithin (limit - limit / 2) pr.2

/-! ## Run state machine (spec section 4.1)

`RunExecutor.execute_run` and `RunExecutor.stop` are not among the given
sources; the per-run state machine is modelled from the spec, with the
signal numbers and result encoding fixed by the tests (`test_stop_run`
expects `exitcode` 9 and termination reason `killed`,
`test_cputime_softlimit` expects 15). -/

/-- The termination causes the executor itself can attribute. -/
inductive TerminationReason
  | cputime | cputimeSoft | walltime | memory | killed
  deriving Repr, DecidableEq

/-- The forceful kill signal, SIGKILL. -/
def SIGKILL : Nat := 9

/-- The graceful termination signal, SIGTERM. -/
def SIGTERM : Nat := 15

/-- Modelled from the spec: events that can end a run
(section 4.1's transition triggers). -/
inductive RunEvent
  /-- the child exits on its own with the given value -/
  | childExit (code : Nat)
  /-- the monitor attributes a limit crossing and kills the child -/
  | limitKill (r : TerminationReason)
  /-- an external `stop()` request fires -/
  | stopRequest
  deriving Repr, DecidableEq

/-- Modelled from the spec: the per-run states of section 4.1
(`RUNNING → EXITED_NORMALLY | TERMINATED(reason)`); a terminated state
records the signal that killed the child. -/
inductive RunState
  | running
  | exited (code : Nat)
  | terminated (r : TerminationReason) (sig : Nat)
  deriving Repr, DecidableEq

/-- Modelled from the spec: one transition of the run state machine.
A soft CPU limit sends the graceful signal, every other enforcement and
`stop()` the forceful kill signal; terminal states absorb later events. -/
def stepRun : RunState → RunEvent → RunState
  | RunState.running, RunEvent.childExit c => RunState.exited c
  | RunState.running, RunEvent.limitKill r =>
    RunState.terminated r
      (if r = TerminationReason.cputimeSoft then SIGTERM else SIGKILL)
  | RunState.running, RunEvent.stopRequest =>
    RunState.terminated TerminationReason.killed SIGKILL
  | s, _ => s

/-- The result mapping produced at the end of a run, as the tests read it:
`exitcode` and the optional `terminationreason`. -/
structure RunResult where
  exitcode : Nat
  terminationreason : Option TerminationReason
  deriving Repr, DecidableEq

/-- Modelled from the spec: result assembly at the end of `execute_run`.
A signal-killed run reports the signal number as `exitcode`, as the tests
observe. -/
def resultOf : RunState → Option RunResult
  | RunState.running => none
  | RunState.exited c => some ⟨c, none⟩
  | RunState.terminated r sig => some ⟨sig, some r⟩

/-- The srun time-limit decomposition from `run_slurm`
(`slurmexecutor.py` lines 204-206): hours component. -/
def srun_timelimit_h (timelimit : Nat) : Nat :=
  timelimit / 3600

/-- Minutes component of the srun time-limit decomposition. -/
def srun_timelimit_m (timelimit : Nat) : Nat :=
  timelimit % 3600 / 60

/-- Seconds component of the srun time-limit decomposition. -/
def srun_timelimit_s (timelimit : Nat) : Nat :=
  timelimit % 60

end BenchExec

namespace BenchExec

/-! ## Helper lemmas -/

lemma land_0x7F_eq_mod (x : Nat) : x.land 0x7F = x % 2 ^ 7 := by
  have h : (0x7F : Nat) = 2 ^ 7 - 1 := by norm_num
  calc x.land 0x7F = x &&& 2 ^ 7 - 1 := by rw [h]; rfl
    _ = x % 2 ^ 7 := Nat.and_pow_two_sub_one_eq_mod x 7

lemma shiftRight_8_eq_div (x : Nat) : x.shiftRight 8 = x / 2 ^ 8 := by
  have h : x.shiftRight 8 = x >>> 8 := rfl
  rw [h, Nat.shiftRight_eq_div_pow]

lemma sudo_returnsignal_eq_mod (x : Nat) : sudo_returnsignal x = x % 2 ^ 7 :=
  land_0x7F_eq_mod x

lemma sudo_returnvalue_eq_div_mod (x : Nat) :
    sudo_returnvalue x = x / 2 ^ 8 % 2 ^ 7 := by
  unfold sudo_returnvalue
  rw [shiftRight_8_eq_div, land_0x7F_eq_mod]

lemma decode_signal_eq_mod (raw : Nat) :
    (decode_wait_status raw).signal = raw % 2 ^ 7 :=
  land_0x7F_eq_mod raw

lemma fileSize_append (a b : List Line) :
    fileSize (a ++ b) = fileSize a + fileSize b := by
  unfold fileSize
  rw [List.map_append, List.sum_append]

lemma fileSize_cons (l : Line) (f : List Line) :
    fileSize (l :: f) = l.length + fileSize f := rfl

/-- `takeToBoundary` is a partition of the file. -/
lemma takeToBoundary_append (f : List Line) (budget : Nat) :
    (takeToBoundary f budget).1 ++ (takeToBoundary f budget).2 = f := by
  induction f generalizing budget with
  | nil => rfl
  | cons l rest ih =>
    unfold takeToBoundary
    by_cases h : budget < l.length
    · simp [h]
    · simp only [h, if_false]
      simpa using ih (budget - l.length)

/-- The head part of `takeToBoundary` starts with the first line. -/
lemma takeToBoundary_head (l : Line) (rest : List Line) (budget : Nat) :
    ∃ p, (takeToBoundary (l :: rest) budget).1 = l :: p := by
  unfold takeToBoundary
  by_cases h : budget < l.length
  · exact ⟨[], by simp [h]⟩
  · exact ⟨(takeToBoundary rest (budget - l.length)).1, by simp [h]⟩

/-- Size of the head part: at most the budget plus one line, for a file of
lines of equal length `L`. -/
lemma takeToBoundary_size_le (L : Nat) :
    ∀ (f : List Line) (budget : Nat), (∀ l ∈ f, l.length = L) →
      fileSize (takeToBoundary f budget).1 ≤ budget + L := by
  intro f
  induction f with
  | nil => intro budget _; simp [takeToBoundary, fileSize]
  | cons l rest ih =>
    intro budget hL
    have hl : l.length = L := hL l (by simp)
    unfold takeToBoundary
    by_cases h : budget < l.length
    · simp only [h, if_true]
      simp [fileSize, hl]
    · simp only [h, if_false]
      have := ih (budget - l.length) (fun x hx => hL x (by simp [hx]))
      simp only [fileSize_cons]
      omega

/-- When the head part swallows the whole file, the file fits in the budget
plus one line. -/
lemma takeToBoundary_all (L : Nat) :
    ∀ (f : List Line) (budget : Nat), (∀ l ∈ f, l.length = L) →
      (takeToBoundary f budget).2 = [] → fileSize f ≤ budget + L := by
  intro f
  induction f with
  | nil => intro budget _ _; simp [fileSize]
  | cons l rest ih =>
    intro budget hL hr
    have hl : l.length = L := hL l (by simp)
    unfold takeToBoundary at hr
    by_cases h : budget < l.length
    · simp only [h, if_true] at hr
      subst hr
      simp [fileSize, hl]
    · simp only [h, if_false] at hr
      have := ih (budget - l.length) (fun x hx => hL x (by simp [hx])) hr
      simp only [fileSize_cons]
      omega

/-- The tail part fits in its budget. -/
lemma tailWithin_size_le (budget : Nat) :
    ∀ f : List Line, fileSize (tailWithin budget f) ≤ budget := by
  intro f
  induction f with
  | nil => simp [tailWithin, fileSize]
  | cons l rest ih =>
    unfold tailWithin
    by_cases h : fileSize (l :: rest) ≤ budget
    · simp [h]
    · simpa [h] using ih

/-- Every line of the tail part is a line of the file. -/
lemma tailWithin_subset (budget : Nat) :
    ∀ f : List Line, ∀ l ∈ tailWithin budget f, l ∈ f := by
  intro f
  induction f with
  | nil => simp [tailWithin]
  | cons x rest ih =>
    intro l hl
    unfold tailWithin at hl
    by_cases h : fileSize (x :: rest) ≤ budget
    · simpa [h] using hl
    · simp only [h, if_false] at hl
      exact List.mem_cons_of_mem x (ih l hl)

/-- When the last line fits in the budget, the tail part is nonempty and
ends with it. -/
lemma tailWithin_getLast (budget : Nat) :
    ∀ f : List Line, f ≠ [] →
      (∀ x, f.getLast? = some x → x.length ≤ budget) →
      tailWithin budget f ≠ [] ∧
        (tailWithin budget f).getLast? = f.getLast? := by
  intro f
  induction f with
  | nil => intro h; exact absurd rfl h
  | cons l rest ih =>
    intro _ hlast
    unfold tailWithin
    by_cases h : fileSize (l :: rest) ≤ budget
    · simp [h]
    · simp only [h, if_false]
      rcases rest with _ | ⟨m, rest⟩
      · exfalso
        have := hlast l (by simp)
        simp [fileSize] at h
        omega
      · have hlast' : ∀ x, (m :: rest).getLast? = some x → x.length ≤ budget := by
          intro x hx
          exact hlast x (by rw [List.getLast?_cons_cons]; exact hx)
        have := ih (by simp) hlast'
        rw [List.getLast?_cons_cons]
        exact this

/-- With only nonempty lines, nothing fits in a zero tail budget. -/
lemma tailWithin_zero :
    ∀ f : List Line, (∀ l ∈ f, 0 < l.length) → tailWithin 0 f = [] := by
  intro f
  induction f with
  | nil => intro _; rfl
  | cons l rest ih =>
    intro hpos
    unfold tailWithin
    have hl : 0 < l.length := hpos l (by simp)
    have h : ¬ fileSize (l :: rest) ≤ 0 := by
      simp only [fileSize_cons]
      omega
    simp only [h, if_false]
    exact ih (fun x hx => hpos x (by simp [hx]))

/-- Terminal run states absorb further events. -/
lemma stepRun_terminated (r : TerminationReason) (sig : Nat) (e : RunEvent) :
    stepRun (RunState.terminated r sig) e = RunState.terminated r sig := by
  cases e <;> rfl

lemma foldl_stepRun_terminated (r : TerminationReason) (sig : Nat) :
    ∀ es : List RunEvent,
      es.foldl stepRun (RunState.terminated r sig) =
        RunState.terminated r sig := by
  intro es
  induction es with
  | nil => rfl
  | cons e es ih => rw [List.foldl_cons, stepRun_terminated]; exact ih

/-! ## Theorems for the claims -/

/-- Claim C1: for every raw exit status observed under privilege elevation,
the decoder applies the re-encoding correction exactly when the direct
decode shows no signal (bits 0-6 of the raw status zero), replacing the
apparent value with the target's real return value taken from bits 8-14 of
the raw status with the core-dump bit (bit 7 of the value) cleared; when
the direct decode shows a nonzero signal the status is left as directly
decoded. -/
theorem fix_exitcode_correct (raw : Nat) :
    fix_exitcode raw =
      (if (decode_wait_status raw).signal = 0 then raw / 2 ^ 8 % 2 ^ 7 else raw)
    ∧ ((decode_wait_status raw).signal = 0 →
        Nat.testBit (fix_exitcode raw) 7 = false) := by
  constructor
  · unfold fix_exitcode
    rw [sudo_returnsignal_eq_mod, sudo_returnvalue_eq_div_mod,
      decode_signal_eq_mod]
  · intro h
    rw [decode_signal_eq_mod] at h
    unfold fix_exitcode
    rw [sudo_returnsignal_eq_mod, sudo_returnvalue_eq_div_mod, if_pos h]
    apply Nat.testBit_lt_two_pow
    exact Nat.mod_lt _ (by norm_num)

/-- Concrete instance of claim C1: raw status `0x3500` (wrapper exit value
`0x35`, no signal) decodes to `0x35` with the core-dump bit clear. -/
theorem fix_exitcode_correct_witness :
    Nat.testBit (fix_exitcode 0x3500) 7 = false :=
  (fix_exitcode_correct 0x3500).2 (by decide)

/-- Claim C2: encoding a synthetic `(value, signal)` pair through the
privilege-elevation re-encoding and decoding it with the sudo decoder
yields the original pair whenever the wrapper's own signal field of the
encoded status is zero. -/
theorem sudo_roundtrip (value signal : Nat)
    (hv : value < 2 ^ 7) (hs : signal < 2 ^ 7)
    (hz : sudo_returnsignal (encode_sudo_status value signal) = 0) :
    sudo_returnvalue (encode_sudo_status value signal) = value ∧
      sudo_returnsignal (encode_sudo_status value signal) = signal ∧
      fix_exitcode (encode_sudo_status value signal) = value := by
  rw [sudo_returnsignal_eq_mod] at hz ⊢
  rw [sudo_returnvalue_eq_div_mod]
  unfold encode_sudo_status at hz ⊢
  refine ⟨by omega, by omega, ?_⟩
  unfold fix_exitcode
  rw [sudo_returnsignal_eq_mod, sudo_returnvalue_eq_div_mod]
  rw [if_pos (by omega)]
  omega

/-- Concrete instance of claim C2: the pair `(value 53, signal 0)`
round-trips through the privilege-elevation encoding. -/
theorem sudo_roundtrip_witness :
    sudo_returnvalue (encode_sudo_status 53 0) = 53 ∧
      sudo_returnsignal (encode_sudo_status 53 0) = 0 ∧
      fix_exitcode (encode_sudo_status 53 0) = 53 :=
  sudo_roundtrip 53 0 (by decide) (by decide) (by decide)

/-- Claim C4: a file whose current size is at most `limit` is left
byte-for-byte unchanged by `reduce_to_limit`. -/
theorem reduce_noop_small (f : List Line) (limit : Nat)
    (h : fileSize f ≤ limit) : reduce_to_limit f limit = f := by
  unfold reduce_to_limit
  rw [if_pos h]

/-- Concrete instance of claim C4: an empty file stays empty at limit 0. -/
theorem reduce_noop_small_witness : reduce_to_limit [] 0 = [] :=
  reduce_noop_small [] 0 (by decide)

/-- Claim C5: `reduce_to_limit` never truncates a line partially: every
line of the result is either the warning marker or a whole original line;
in particular a file of one long unterminated line larger than the limit is
left entirely intact. -/
theorem reduce_never_splits_lines :
    (∀ (f : List Line) (limit : Nat), ∀ l ∈ reduce_to_limit f limit,
        l = markerLine ∨ l ∈ f) ∧
      (∀ (l : Line) (limit : Nat), limit < l.length →
        reduce_to_limit [l] limit = [l]) := by
  constructor
  · intro f limit l hl
    unfold reduce_to_limit at hl
    by_cases h1 : fileSize f ≤ limit
    · right; simpa [h1] using hl
    · simp only [h1, if_false] at hl
      by_cases h2 : (takeToBoundary f (limit / 2)).2 = []
      · right; simpa [h2] using hl
      · simp only [h2, if_false] at hl
        rcases List.mem_append.1 hl with hp | hm
        · right
          rw [← takeToBoundary_append f (limit / 2)]
          exact List.mem_append_left _ hp
        · rcases List.mem_cons.1 hm with he | ht
          · left; exact he
          · right
            rw [← takeToBoundary_append f (limit / 2)]
            exact List.mem_append_right _
              (tailWithin_subset (limit - limit / 2) _ l ht)
  · intro l limit hlen
    unfold reduce_to_limit
    by_cases h1 : fileSize [l] ≤ limit
    · simp [h1]
    · have h2 : (takeToBoundary [l] (limit / 2)).2 = [] := by
        unfold takeToBoundary
        have : limit / 2 < l.length :=
          lt_of_le_of_lt (Nat.div_le_self _ _) hlen
        simp [this]
      simp [h1, h2]

/-- Concrete instance of claim C5: a single 12-byte line at limit 5 is left
intact. -/
theorem reduce_never_splits_lines_witness :
    reduce_to_limit [List.replicate 12 'a'] 5 = [List.replicate 12 'a'] :=
  reduce_never_splits_lines.2 (List.replicate 12 'a') 5 (by decide)

/-- Counterexample to claim C3 as stated: files of equal-length lines
whose total size exceeds the limit for which the claimed conjunction
fails.  (a) A file of one 12-byte line at limit 5 is left intact without
the marker.  (b) Four 26-byte lines at limit 52 reduce to 153 bytes,
exceeding limit + overhead = 152.  (c) Two 15-byte lines at limit 20
reduce to a file that no longer ends with the original last line. -/
theorem reduce_equal_lines_cex :
    (5 < fileSize [List.replicate 12 'a'] ∧
      markerLine ∉ reduce_to_limit [List.replicate 12 'a'] 5) ∧
    (52 < fileSize (List.replicate 4 (List.replicate 25 'a' ++ ['\n'])) ∧
      52 + REDUCE_OVERHEAD <
        fileSize (reduce_to_limit
          (List.replicate 4 (List.replicate 25 'a' ++ ['\n'])) 52)) ∧
    (20 < fileSize
        [List.replicate 14 'a' ++ ['\n'], List.replicate 14 'b' ++ ['\n']] ∧
      (reduce_to_limit
          [List.replicate 14 'a' ++ ['\n'], List.replicate 14 'b' ++ ['\n']]
          20).getLast? ≠
        some (List.replicate 14 'b' ++ ['\n'])) := by
  decide

/-- Claim C3 (amended): for every file of equal-length nonempty lines of
length `L` such that two lines fit in the limit and a line plus the marker
fits in the overhead allowance, if the total size exceeds the limit then
the reduced file is at most `limit + overhead` bytes, starts with the
original first line verbatim, ends with the original last line verbatim,
and contains the fixed warning marker. -/
theorem reduce_equal_lines (f : List Line) (L limit : Nat)
    (hL : ∀ l ∈ f, l.length = L)
    (hpos : 0 < L)
    (hsmall : L + markerLine.length ≤ REDUCE_OVERHEAD)
    (hhalf : 2 * L ≤ limit)
    (hbig : limit < fileSize f) :
    fileSize (reduce_to_limit f limit) ≤ limit + REDUCE_OVERHEAD ∧
      (reduce_to_limit f limit).head? = f.head? ∧
      (reduce_to_limit f limit).getLast? = f.getLast? ∧
      markerLine ∈ reduce_to_limit f limit := by
  have h1 : ¬ fileSize f ≤ limit := by omega
  have hr : (takeToBoundary f (limit / 2)).2 ≠ [] := by
    intro hcon
    have := takeToBoundary_all L f (limit / 2) hL hcon
    omega
  have hred : reduce_to_limit f limit =
      (takeToBoundary f (limit / 2)).1 ++
        markerLine :: tailWithin (limit - limit / 2)
          (takeToBoundary f (limit / 2)).2 := by
    unfold reduce_to_limit
    rw [if_neg h1]
    simp only [hr, if_false]
  have hpart := takeToBoundary_append f (limit / 2)
  have htail := tailWithin_getLast (limit - limit / 2)
    (takeToBoundary f (limit / 2)).2 hr ?side
  case side =>
    intro x hx
    have hmem : x ∈ f := by
      rw [← hpart]
      exact List.mem_append_right _ (List.mem_of_getLast?_eq_some hx)
    have := hL x hmem
    omega
  refine ⟨?_, ?_, ?_, ?_⟩
  · rw [hred, fileSize_append, fileSize_cons]
    have hhead := takeToBoundary_size_le L f (limit / 2) hL
    have htailsize := tailWithin_size_le (limit - limit / 2)
      (takeToBoundary f (limit / 2)).2
    omega
  · rcases f with _ | ⟨l, rest⟩
    · simp [fileSize] at hbig
    · obtain ⟨p, hp⟩ := takeToBoundary_head l rest (limit / 2)
      rw [hred, hp]
      rfl
  · rw [hred, List.getLast?_append_of_ne_nil _ (by simp)]
    have hcons : (markerLine ::
        tailWithin (limit - limit / 2)
          (takeToBoundary f (limit / 2)).2).getLast? =
        (tailWithin (limit - limit / 2)
          (takeToBoundary f (limit / 2)).2).getLast? := by
      rcases ht0 : tailWithin (limit - limit / 2)
          (takeToBoundary f (limit / 2)).2 with _ | ⟨m, t⟩
      · exact absurd ht0 htail.1
      · rw [List.getLast?_cons_cons]
    have hlast : f.getLast? = (takeToBoundary f (limit / 2)).2.getLast? := by
      conv_lhs => rw [← hpart]
      exact List.getLast?_append_of_ne_nil _ hr
    rw [hcons, htail.2, ← hlast]
  · rw [hred]
    exact List.mem_append_right _ (List.mem_cons_self _ _)

/-- Concrete instance of the amended claim C3: eight 10-byte lines at
limit 50 reduce to a file within the bound that keeps the first and last
lines and the marker. -/
theorem reduce_equal_lines_witness :
    fileSize (reduce_to_limit
        (List.replicate 8 (List.replicate 9 'a' ++ ['\n'])) 50) ≤
      50 + REDUCE_OVERHEAD :=
  (reduce_equal_lines (List.replicate 8 (List.replicate 9 'a' ++ ['\n']))
    10 50 (by decide) (by decide) (by decide) (by decide) (by decide)).1

/-- Counterexample to claim C6 as stated: at limit 0 a file whose first
line has 30 bytes keeps that line plus the 75-byte marker, so the result
exceeds the fixed overhead of 100 bytes. -/
theorem reduce_limit_zero_cex :
    REDUCE_OVERHEAD <
      fileSize (reduce_to_limit
        [List.replicate 29 'a' ++ ['\n'], List.replicate 9 'b' ++ ['\n']]
        0) := by
  decide

/-- Claim C6 (amended): at limit 0, for a file with a nonempty first line
and at least one further nonempty line, `reduce_to_limit` keeps exactly
the first line (uncorrupted) followed by the warning marker; its size is
the first line's length plus the marker's, which is within the fixed
overhead exactly when that sum is. -/
theorem reduce_limit_zero (l1 : Line) (rest : List Line)
    (h1 : 0 < l1.length) (hr : rest ≠ [])
    (hpos : ∀ l ∈ rest, 0 < l.length) :
    reduce_to_limit (l1 :: rest) 0 = [l1, markerLine] ∧
      fileSize (reduce_to_limit (l1 :: rest) 0) =
        l1.length + markerLine.length ∧
      (l1.length + markerLine.length ≤ REDUCE_OVERHEAD →
        fileSize (reduce_to_limit (l1 :: rest) 0) ≤ REDUCE_OVERHEAD) := by
  have hmain : reduce_to_limit (l1 :: rest) 0 = [l1, markerLine] := by
    unfold reduce_to_limit
    have h0 : ¬ fileSize (l1 :: rest) ≤ 0 := by
      simp only [fileSize_cons]
      omega
    rw [if_neg h0]
    have hsplit : takeToBoundary (l1 :: rest) 0 = ([l1], rest) := by
      unfold takeToBoundary
      simp [h1]
    simp only [hsplit, hr, if_false]
    rw [tailWithin_zero rest hpos]
    rfl
  refine ⟨hmain, ?_, ?_⟩
  · rw [hmain]
    simp [fileSize]
  · intro hsmall
    rw [hmain]
    simp only [fileSize_cons]
    simp [fileSize]
    omega

/-- Concrete instance of the amended claim C6: two 10-byte lines at
limit 0 reduce to the first line plus the marker. -/
theorem reduce_limit_zero_witness :
    reduce_to_limit [List.replicate 9 'a' ++ ['\n'],
        List.replicate 9 'b' ++ ['\n']] 0 =
      [List.replicate 9 'a' ++ ['\n'], markerLine] :=
  (reduce_limit_zero (List.replicate 9 'a' ++ ['\n'])
    [List.replicate 9 'b' ++ ['\n']]
    (by decide) (by decide) (by decide)).1

/-- Claim C7: when `stop()` terminates a still-running process, the
eventual run result reports termination reason `killed` and an exit status
carrying the forceful kill signal (exit code 9, SIGKILL), whatever events
follow. -/
theorem stop_run_result (es : List RunEvent) :
    resultOf ((RunEvent.stopRequest :: es).foldl stepRun RunState.running) =
      some ⟨SIGKILL, some TerminationReason.killed⟩ := by
  rw [List.foldl_cons]
  have h : stepRun RunState.running RunEvent.stopRequest =
      RunState.terminated TerminationReason.killed SIGKILL := rfl
  rw [h, foldl_stepRun_terminated]
  rfl

/-- Claim C8: `stop()` is idempotent: a second call leaves the scheduler
state exactly as after the first; it touches nothing but the interrupt
flag, and when the flag is already set (no active run, or the run already
finished) it has no effect at all.  It is a total function, so it never
raises. -/
theorem stop_idempotent (s : SchedulerState) :
    stop (stop s) = stop s ∧
      (stop s).worker_threads = s.worker_threads ∧
      (s.stopped_by_interrupt = true → stop s = s) := by
  refine ⟨rfl, rfl, fun h => ?_⟩
  unfold stop
  cases s
  simp_all

/-- Concrete instance of claim C8: stopping an already-stopped scheduler
state with two workers changes nothing. -/
theorem stop_idempotent_witness :
    stop ⟨true, [0, 1]⟩ = (⟨true, [0, 1]⟩ : SchedulerState) :=
  (stop_idempotent ⟨true, [0, 1]⟩).2.2 rfl

/-- Claim C9: when the global interrupt has fired, `_Worker.execute`
abandons the unit cleanly: no result is recorded via `set_result`, nothing
is raised (an `OSError` from the removal is swallowed), the log file is
never left in the finalized, complete-looking state, and on successful
removal it is deleted (or renamed with a `.killed` mark in debug mode). -/
theorem worker_abandons_on_interrupt (debug removeOk : Bool) :
    (workerFinish true debug removeOk).result_recorded = false ∧
      (workerFinish true debug removeOk).raised = false ∧
      (workerFinish true debug removeOk).log ≠ LogFileState.finalized ∧
      (removeOk = true →
        (workerFinish true debug removeOk).log =
          if debug then LogFileState.renamedKilled else LogFileState.removed) := by
  unfold workerFinish
  refine ⟨rfl, rfl, ?_, fun h => ?_⟩
  · cases removeOk <;> cases debug <;> simp
  · subst h; rfl

/-- Concrete instance of claim C9: with the interrupt fired, debug off and
the removal succeeding, the log file is removed. -/
theorem worker_abandons_on_interrupt_witness :
    (workerFinish true false true).log = LogFileState.removed :=
  (worker_abandons_on_interrupt false true).2.2.2 rfl

/-- Claim C10: the hours/minutes/seconds decomposition computed by
`run_slurm` for the srun time limit loses nothing: for every cputime limit
`t`, `h * 3600 + m * 60 + s = t` with `m < 60` and `s < 60`. -/
theorem srun_timelimit_decomposition (t : Nat) :
    srun_timelimit_h t * 3600 + srun_timelimit_m t * 60 + srun_timelimit_s t
        = t ∧
      srun_timelimit_m t < 60 ∧ srun_timelimit_s t < 60 := by
  unfold srun_timelimit_h srun_timelimit_m srun_timelimit_s
  omega

end BenchExec
